import Mathlib

/-!
A shallow embedding of the connection-oriented packet multiplexing layer of
the net crate (net.rs): the peer registry with wrapping 32-bit PeerId
allocation, the inbound routing core (feed), outbound dispatch (send,
send_connless) and the ReceivePacket event iterator with its eager
peer-removal side effect.

The Connection state machine, the Packet codec (Packet::read / Packet::write)
and the user send-callback are collaborators that live outside this module;
they are represented abstractly (a `ConnOps` record of operations, a decode
function, a callback function) and the theorems quantify over all their
instantiations, or the collaborator is modelled from the specification where
a doc comment says so.

Panics of the Rust source (invalid pid, the assertion in the accept path,
the unreachable capacity arm) are modelled as `Except.error` carrying the
panic message; the allocation loop of new_peer, which never returns when all
2^32 PeerId slots are occupied, is modelled by a fuelled linear probe whose
fuel 2^32 covers every slot, returning `Option.none` exactly when the Rust
loop would run forever.

Machine integers: PeerId is a u32 modelled as `Nat` with explicit `% 2^32`
at the wrapping increment (PeerId::get_and_increment uses wrapping_add).
Byte slices are modelled as `List Nat`.
-/

/-- Raw datagram / chunk payload bytes (a borrowed byte slice in the source). -/
abbrev Bytes := List Nat

/-- `connection::ReceiveChunk`: the variants the Connection collaborator's
feed iterator yields (contract in spec section 6). -/
inductive ReceiveChunk where
  | connless (d : Bytes)
  | connected (d : Bytes) (vital : Bool)
  | disconnect (reason : Bytes)
  deriving DecidableEq

/-- `ChunkType` from net.rs. -/
inductive ChunkType where
  | connless
  | connected
  | vital
  deriving DecidableEq

/-- `ChunkAddress` from net.rs; PeerId is a `Nat` below 2^32. -/
inductive ChunkAddress (A : Type) where
  | nonPeerConnless (a : A)
  | peer (pid : Nat) (t : ChunkType)
  deriving DecidableEq

/-- `Chunk` from net.rs. -/
structure Chunk (A : Type) where
  data : Bytes
  addr : ChunkAddress A
  deriving DecidableEq

/-- `ChunkOrEvent` from net.rs. -/
inductive ChunkOrEvent (A : Type) where
  | chunk (c : Chunk A)
  | connect (pid : Nat)
  | disconnect (pid : Nat) (reason : Bytes)
  deriving DecidableEq

/-- Modelled from the spec: the decoded shape of a top-level `Packet`, as far
as the router inspects it (`Packet::read` lives in the protocol crate, outside
this module). The router only distinguishes a connless payload and whether a
connected packet is a Control-Connect packet, so the model records exactly
that. -/
inductive Packet where
  | connless (d : Bytes)
  | connected (ctrlConnect : Bool)
  deriving DecidableEq

/-- `protocol::Error` as matched by ConnlessBuilder::send. -/
inductive ProtoError where
  | capacity
  | tooLongData
  deriving DecidableEq

/-- `connection::Error`, re-exported by net.rs as `Error`: either the payload
was too long for the wire format, or the user callback failed with `E`. -/
inductive NErr (E : Type) where
  | tooLongData
  | callback (e : E)
  deriving DecidableEq

/-- The Connection collaborator (spec section 6), abstracted as a record of
pure operations on an opaque connection state `C`. `feed` returns the new
state, the list the inner receive iterator yields, and the send result. -/
structure ConnOps (C E : Type) where
  new : C
  connect : C → C × Except E Unit
  disconnect : C → Bytes → C × Except E Unit
  send : C → Bytes → Bool → C × Except (NErr E) Unit
  sendConnless : C → Bytes → C × Except (NErr E) Unit
  feed : C → Bytes → C × List ReceiveChunk × Except E Unit

/-- `Peer` from net.rs: a Connection paired with the remote address. -/
structure Peer (A C : Type) where
  conn : C
  addr : A
  deriving DecidableEq

/-- The state of `Net` (its `Peers` registry): the LinearMap backing store as
an association list in insertion order, plus `next_peer_id`. The
ConnlessBuilder scratch buffer carries no observable state and is not
modelled. -/
structure NetSt (A C : Type) where
  peers : List (Nat × Peer A C)
  nextPeerId : Nat
  deriving DecidableEq

/-- `LinearMap::get`: first entry with the given key. -/
def plookup {A C : Type} (pid : Nat) : List (Nat × Peer A C) → Option (Peer A C)
  | [] => none
  | e :: es => if e.1 = pid then some e.2 else plookup pid es

/-- `LinearMap::remove`: drop the first entry with the given key. -/
def perase {A C : Type} (pid : Nat) : List (Nat × Peer A C) → List (Nat × Peer A C)
  | [] => []
  | e :: es => if e.1 = pid then es else e :: perase pid es

/-- `Peers::pid_from_addr`: linear scan for the first peer at the address. -/
def pidFromAddr {A C : Type} [DecidableEq A] : List (Nat × Peer A C) → A → Option Nat
  | [], _ => none
  | e :: es, a => if e.2.addr = a then some e.1 else pidFromAddr es a

/-- The allocation loop of `Peers::new_peer`: starting at `cur`, repeatedly
take the current id and step by the wrapping increment of
PeerId::get_and_increment until a vacant id is found. The fuel bounds the
number of probes; `new_peer` runs it with fuel 2^32, enough to visit every
slot once, so exhausted fuel is exactly the Rust loop spinning forever on a
full registry. -/
def probeVacant {A C : Type} (peers : List (Nat × Peer A C)) : Nat → Nat → Option Nat
  | 0, _ => none
  | fuel + 1, cur =>
    match plookup cur peers with
    | none => some cur
    | some _ => probeVacant peers fuel ((cur + 1) % 2 ^ 32)

/-- `Peers::new_peer`: allocate the next vacant PeerId (linear probe over the
wrapping counter) and append a fresh peer for `addr`; `conn` is the freshly
constructed connection (`Connection::new`). Returns `none` when the Rust loop
would never terminate (every one of the 2^32 slots occupied). -/
def newPeer {A C : Type} (st : NetSt A C) (conn : C) (addr : A) : Option (Nat × NetSt A C) :=
  match probeVacant st.peers (2 ^ 32) (st.nextPeerId % 2 ^ 32) with
  | none => none
  | some pid => some (pid, ⟨st.peers ++ [(pid, ⟨conn, addr⟩)], (pid + 1) % 2 ^ 32⟩)

/-- `Peers::remove_peer`: delete the entry, panicking ("invalid pid") when it
is absent. -/
def removePeer {A C : Type} (st : NetSt A C) (pid : Nat) : Except String (NetSt A C) :=
  match plookup pid st.peers with
  | none => .error "invalid pid"
  | some _ => .ok ⟨perase pid st.peers, st.nextPeerId⟩

/-- In-place mutation of a peer's connection state at a key: the key and
address of every entry are unchanged. -/
def pupdate {A C : Type} (pid : Nat) (c : C) (l : List (Nat × Peer A C)) :
    List (Nat × Peer A C) :=
  l.map (fun e => if e.1 = pid then (e.1, ⟨c, e.2.addr⟩) else e)

/-- In-place mutation of a peer's connection state (the `&mut` access through
`self.peers[pid].conn`); the key and address of every entry are unchanged. -/
def updateConn {A C : Type} (st : NetSt A C) (pid : Nat) (c : C) : NetSt A C :=
  ⟨pupdate pid c st.peers, st.nextPeerId⟩

/-- `Net::peer_addr`: optional lookup, no panic. -/
def Net.peerAddr {A C : Type} (st : NetSt A C) (pid : Nat) : Option A :=
  (plookup pid st.peers).map (fun p => p.addr)

/-- The variants of `ReceivePacketType` from net.rs. -/
inductive ReceivePacketT (A : Type) where
  | none
  | connect (pid : Nat)
  | connected (pid : Nat) (inner : List ReceiveChunk)
  | connless (addr : A) (data : Bytes)
  deriving DecidableEq

/-- The per-chunk mapping done by `Iterator::next` for the Connected variant. -/
def chunkToEvent {A : Type} (pid : Nat) : ReceiveChunk → ChunkOrEvent A
  | .connless d => .chunk ⟨d, .peer pid .connless⟩
  | .connected d vital => .chunk ⟨d, .peer pid (if vital then .vital else .connected)⟩
  | .disconnect r => .disconnect pid r

/-- Full consumption of a ReceivePacket iterator (`Iterator::next` driven to
exhaustion), in order. -/
def ReceivePacketT.toList {A : Type} : ReceivePacketT A → List (ChunkOrEvent A)
  | .none => []
  | .connect pid => [.connect pid]
  | .connected pid inner => inner.map (chunkToEvent pid)
  | .connless addr d => [.chunk ⟨d, .nonPeerConnless addr⟩]

/-- The pre-scan loop in `ReceivePacket::connected`: for every Disconnect
element of the (cloned) inner iterator, call `remove_peer pid`. -/
def removeDiscs {A C : Type} (pid : Nat) : List ReceiveChunk → NetSt A C → Except String (NetSt A C)
  | [], st => .ok st
  | .disconnect _ :: cs, st =>
    match removePeer st pid with
    | .error m => .error m
    | .ok st' => removeDiscs pid cs st'
  | .connless _ :: cs, st => removeDiscs pid cs st
  | .connected _ _ :: cs, st => removeDiscs pid cs st

/-- `ReceivePacket::connected`: wrap the inner iterator, eagerly removing the
peer once per Disconnect observation during construction. -/
def receivePacketConnected {A C : Type} (pid : Nat) (inner : List ReceiveChunk) (st : NetSt A C) :
    Except String (ReceivePacketT A × NetSt A C) :=
  match removeDiscs pid inner st with
  | .error m => .error m
  | .ok st' => .ok (.connected pid inner, st')

/-- Whether a ReceiveChunk is a Disconnect observation. -/
def isDisc : ReceiveChunk → Bool
  | .disconnect _ => true
  | _ => false

/-- Modelled from the spec: `Packet::write` for a connectionless packet into
the MAX_PACKETSIZE scratch (the codec lives in the protocol crate, outside
this module). The codec reports TooLongData when the payload exceeds its
maximum data length (`maxData`); a capacity error cannot happen because the
scratch is sized to the maximum packet size. `ser` is the (opaque) serialized
wire form. -/
def writeConnless (maxData : Nat) (ser : Bytes → Bytes) (d : Bytes) : Except ProtoError Bytes :=
  if maxData < d.length then .error .tooLongData else .ok (ser d)

/-- `ConnlessBuilder::send`, split on the result of `Packet::write`: a
capacity error is unreachable (panic "too short buffer provided"), a
too-long-data error surfaces as `NErr.tooLongData` with the callback never
invoked, otherwise the serialized datagram is handed to the callback and a
callback error is propagated unchanged. The returned list logs every
invocation of the user callback. -/
def builderSend {A E : Type} (cbf : A → Bytes → Option E) (addr : A) (wr : Except ProtoError Bytes) :
    Except String (List (A × Bytes) × Except (NErr E) Unit) :=
  match wr with
  | .error .capacity => .error "too short buffer provided"
  | .error .tooLongData => .ok ([], .error .tooLongData)
  | .ok sendData =>
    match cbf addr sendData with
    | some e => .ok ([(addr, sendData)], .error (.callback e))
    | none => .ok ([(addr, sendData)], .ok ())

/-- `Net::new`. -/
def Net.new {A C : Type} : NetSt A C := ⟨[], 0⟩

/-- `Net::connect`: allocate a new peer at the address and run the client
handshake on its fresh connection. -/
def Net.connect {A C E : Type} (O : ConnOps C E) (st : NetSt A C) (addr : A) :
    Except String (Nat × NetSt A C × Except E Unit) :=
  match newPeer st O.new addr with
  | none => .error "new peer allocation loops: no vacant peer id"
  | some (pid, st1) =>
    let r := O.connect O.new
    .ok (pid, updateConn st1 pid r.1, r.2)

/-- `Net::disconnect`: panics ("invalid pid") via indexing when the pid is not
live, otherwise delegates to the connection's disconnect. -/
def Net.disconnect {A C E : Type} (O : ConnOps C E) (st : NetSt A C) (pid : Nat) (reason : Bytes) :
    Except String (NetSt A C × Except E Unit) :=
  match plookup pid st.peers with
  | none => .error "invalid pid"
  | some p =>
    let r := O.disconnect p.conn reason
    .ok (updateConn st pid r.1, r.2)

/-- `Net::send_connless`: delegate to the ConnlessBuilder, no peer lookup. -/
def Net.sendConnless {A E : Type} (maxData : Nat) (ser : Bytes → Bytes)
    (cbf : A → Bytes → Option E) (addr : A) (d : Bytes) :
    Except String (List (A × Bytes) × Except (NErr E) Unit) :=
  builderSend cbf addr (writeConnless maxData ser d)

/-- `Net::send`: dispatch on the chunk's address. -/
def Net.send {A C E : Type} [DecidableEq A] (O : ConnOps C E) (maxData : Nat) (ser : Bytes → Bytes)
    (st : NetSt A C) (cbf : A → Bytes → Option E) (ch : Chunk A) :
    Except String (NetSt A C × List (A × Bytes) × Except (NErr E) Unit) :=
  match ch.addr with
  | .nonPeerConnless a =>
    match pidFromAddr st.peers a with
    | some pid =>
      match plookup pid st.peers with
      | none => .error "invalid pid"
      | some p =>
        let r := O.sendConnless p.conn ch.data
        .ok (updateConn st pid r.1, [], r.2)
    | none =>
      match Net.sendConnless maxData ser cbf a ch.data with
      | .error m => .error m
      | .ok (log, r) => .ok (st, log, r)
  | .peer pid ty =>
    match plookup pid st.peers with
    | none => .error "invalid pid"
    | some p =>
      match ty with
      | .connless =>
        let r := O.sendConnless p.conn ch.data
        .ok (updateConn st pid r.1, [], r.2)
      | .connected =>
        let r := O.send p.conn ch.data false
        .ok (updateConn st pid r.1, [], r.2)
      | .vital =>
        let r := O.send p.conn ch.data true
        .ok (updateConn st pid r.1, [], r.2)

/-- `Net::feed_impl`, the routing core: `dec` is the result of `Packet::read`
on the datagram. Order of effects in the existing-peer branch follows the
source: the connection is fed (mutating its state), then the ReceivePacket
wrapper is constructed, eagerly removing the peer per Disconnect. -/
def Net.feedImpl {A C E : Type} [DecidableEq A] (O : ConnOps C E) (dec : Bytes → Option Packet)
    (st : NetSt A C) (addr : A) (data : Bytes) :
    Except String (ReceivePacketT A × NetSt A C × Except E Unit) :=
  match pidFromAddr st.peers addr with
  | some pid =>
    match plookup pid st.peers with
    | none => .error "invalid pid"
    | some p =>
      let r := O.feed p.conn data
      match receivePacketConnected pid r.2.1 (updateConn st pid r.1) with
      | .error m => .error m
      | .ok (pkt, st') => .ok (pkt, st', r.2.2)
  | none =>
    match dec data with
    | some (.connless d) => .ok (.connless addr d, st, .ok ())
    | some (.connected true) =>
      match newPeer st O.new addr with
      | none => .error "new peer allocation loops: no vacant peer id"
      | some (pid, st1) =>
        let r := O.feed O.new data
        match r.2.1 with
        | [] => .ok (.connect pid, updateConn st1 pid r.1, r.2.2)
        | _ :: _ => .error "assertion failed: inner iterator not empty"
    | _ => .ok (.none, st, .ok ())

/-- Key distinctness of the registry's backing list. -/
def keysDistinct {A C : Type} (l : List (Nat × Peer A C)) : Prop :=
  l.Pairwise (fun e1 e2 => e1.1 ≠ e2.1)

/-- The registry invariant: pairwise distinct PeerIds and pairwise distinct
addresses among live peers. -/
def wfPeers {A C : Type} (l : List (Nat × Peer A C)) : Prop :=
  l.Pairwise (fun e1 e2 => e1.1 ≠ e2.1 ∧ e1.2.addr ≠ e2.2.addr)

/-- States reachable from `Net::new` by sequences of Net operations in which
`connect` is only invoked with addresses that have no live peer. The
callback, payloads and addresses vary freely per step; `send_connless`
touches no registry state and therefore needs no step. -/
inductive ReachesGood {A C E : Type} [DecidableEq A] (O : ConnOps C E)
    (dec : Bytes → Option Packet) (maxData : Nat) (ser : Bytes → Bytes) :
    NetSt A C → Prop where
  | init : ReachesGood O dec maxData ser Net.new
  | connectStep {st : NetSt A C} {addr pid st' e} :
      ReachesGood O dec maxData ser st →
      pidFromAddr st.peers addr = none →
      Net.connect O st addr = .ok (pid, st', e) →
      ReachesGood O dec maxData ser st'
  | disconnectStep {st : NetSt A C} {pid reason st' e} :
      ReachesGood O dec maxData ser st →
      Net.disconnect O st pid reason = .ok (st', e) →
      ReachesGood O dec maxData ser st'
  | sendStep {st : NetSt A C} {cbf ch st' log r} :
      ReachesGood O dec maxData ser st →
      Net.send O maxData ser st cbf ch = .ok (st', log, r) →
      ReachesGood O dec maxData ser st'
  | feedStep {st : NetSt A C} {addr data pkt st' e} :
      ReachesGood O dec maxData ser st →
      Net.feedImpl O dec st addr data = .ok (pkt, st', e) →
      ReachesGood O dec maxData ser st'

/-! ### Registry lemmas -/

theorem plookup_eq_none_iff {A C : Type} {pid : Nat} {l : List (Nat × Peer A C)} :
    plookup pid l = none ↔ ∀ e ∈ l, e.1 ≠ pid := by
  induction l with
  | nil => simp [plookup]
  | cons e es ih => by_cases h : e.1 = pid <;> simp [plookup, h, ih]

theorem plookup_mem {A C : Type} {pid : Nat} {p : Peer A C} {l : List (Nat × Peer A C)}
    (h : plookup pid l = some p) : (pid, p) ∈ l := by
  induction l with
  | nil => simp [plookup] at h
  | cons e es ih =>
    by_cases he : e.1 = pid
    · simp only [plookup, he, if_pos, Option.some.injEq] at h
      have : e = (pid, p) := by cases e; simp_all
      rw [← this]; exact List.mem_cons_self _ _
    · simp only [plookup, he, if_neg, not_false_iff] at h
      exact List.mem_cons_of_mem _ (ih h)

theorem plookup_append {A C : Type} {pid : Nat} {l l' : List (Nat × Peer A C)} :
    plookup pid (l ++ l') =
      match plookup pid l with
      | some p => some p
      | none => plookup pid l' := by
  induction l with
  | nil => simp [plookup]
  | cons e es ih => by_cases h : e.1 = pid <;> simp [plookup, h, ih]

theorem pidFromAddr_eq_none_iff {A C : Type} [DecidableEq A] {a : A}
    {l : List (Nat × Peer A C)} :
    pidFromAddr l a = none ↔ ∀ e ∈ l, e.2.addr ≠ a := by
  induction l with
  | nil => simp [pidFromAddr]
  | cons e es ih => by_cases h : e.2.addr = a <;> simp [pidFromAddr, h, ih]

theorem pidFromAddr_mem {A C : Type} [DecidableEq A] {a : A} {pid : Nat}
    {l : List (Nat × Peer A C)} (h : pidFromAddr l a = some pid) :
    ∃ p, (pid, p) ∈ l ∧ p.addr = a := by
  induction l with
  | nil => simp [pidFromAddr] at h
  | cons e es ih =>
    by_cases he : e.2.addr = a
    · simp only [pidFromAddr, he, if_pos, Option.some.injEq] at h
      exact ⟨e.2, by rw [← h]; exact List.mem_cons_self _ _, he⟩
    · simp only [pidFromAddr, he, if_neg, not_false_iff] at h
      obtain ⟨p, hm, ha⟩ := ih h
      exact ⟨p, List.mem_cons_of_mem _ hm, ha⟩

theorem perase_sublist {A C : Type} (pid : Nat) (l : List (Nat × Peer A C)) :
    (perase pid l).Sublist l := by
  induction l with
  | nil => simp [perase]
  | cons e es ih =>
    by_cases h : e.1 = pid
    · simp [perase, h]
    · simpa [perase, h] using ih.cons₂ e

theorem plookup_perase_self {A C : Type} {pid : Nat} {l : List (Nat × Peer A C)}
    (hk : keysDistinct l) : plookup pid (perase pid l) = none := by
  induction l with
  | nil => simp [perase, plookup]
  | cons e es ih =>
    rw [keysDistinct, List.pairwise_cons] at hk
    by_cases h : e.1 = pid
    · simp only [perase, h, if_pos]
      rw [plookup_eq_none_iff]
      intro e' he'
      exact fun hq => (hk.1 e' he') (h.trans hq.symm)
    · simp only [perase, h, if_neg, not_false_iff, plookup, ih hk.2]

theorem plookup_perase_other {A C : Type} {pid q : Nat} {l : List (Nat × Peer A C)}
    (hq : q ≠ pid) : plookup q (perase pid l) = plookup q l := by
  induction l with
  | nil => simp [perase]
  | cons e es ih =>
    by_cases h : e.1 = pid
    · simp [perase, h, plookup, Ne.symm hq]
    · by_cases h2 : e.1 = q <;> simp [perase, h, plookup, h2, hq, ih]

theorem pupdate_plookup_self {A C : Type} {pid : Nat} {c : C} {l : List (Nat × Peer A C)} :
    plookup pid (pupdate pid c l) = (plookup pid l).map (fun p => ⟨c, p.addr⟩) := by
  induction l with
  | nil => simp [pupdate, plookup]
  | cons e es ih =>
    simp only [pupdate] at ih ⊢
    by_cases h : e.1 = pid <;> simp [plookup, h, ih]

theorem pupdate_plookup_other {A C : Type} {pid q : Nat} {c : C} {l : List (Nat × Peer A C)}
    (hq : q ≠ pid) : plookup q (pupdate pid c l) = plookup q l := by
  induction l with
  | nil => simp [pupdate, plookup]
  | cons e es ih =>
    simp only [pupdate] at ih ⊢
    by_cases h : e.1 = pid
    · simp [plookup, h, Ne.symm hq, ih]
    · by_cases h2 : e.1 = q <;> simp [plookup, h, h2, hq, ih]

theorem pupdate_pidFromAddr {A C : Type} [DecidableEq A] {pid : Nat} {c : C} {a : A}
    {l : List (Nat × Peer A C)} :
    pidFromAddr (pupdate pid c l) a = pidFromAddr l a := by
  induction l with
  | nil => simp [pupdate, pidFromAddr]
  | cons e es ih =>
    simp only [pupdate] at ih ⊢
    by_cases h : e.1 = pid <;> by_cases h2 : e.2.addr = a <;>
      simp [pidFromAddr, h, h2, ih]

/-! ### Allocation probe lemmas -/

theorem probeVacant_some_vacant {A C : Type} {peers : List (Nat × Peer A C)}
    {fuel cur pid : Nat} (h : probeVacant peers fuel cur = some pid) :
    plookup pid peers = none := by
  induction fuel generalizing cur with
  | zero => simp [probeVacant] at h
  | succ fuel ih =>
    simp only [probeVacant] at h
    cases hc : plookup cur peers with
    | none =>
      rw [hc] at h
      injection h with h2
      subst h2
      exact hc
    | some p =>
      rw [hc] at h
      exact ih h

theorem probeVacant_none_occupied {A C : Type} {peers : List (Nat × Peer A C)} :
    ∀ {fuel cur : Nat}, probeVacant peers fuel cur = none → cur < 2 ^ 32 →
      ∀ i < fuel, (plookup ((cur + i) % 2 ^ 32) peers).isSome := by
  intro fuel
  induction fuel with
  | zero => exact fun _ _ i hi => absurd hi (Nat.not_lt_zero i)
  | succ fuel ih =>
    intro cur h hcur i hi
    simp only [probeVacant] at h
    cases hc : plookup cur peers with
    | none => rw [hc] at h; simp at h
    | some p =>
      rw [hc] at h
      cases i with
      | zero =>
        have he : (cur + 0) % 2 ^ 32 = cur := by omega
        rw [he, hc]; rfl
      | succ j =>
        have hj := ih h (Nat.mod_lt _ (by norm_num)) j (by omega)
        have heq : cur + 1 + j = cur + (j + 1) := by omega
        rw [Nat.mod_add_mod, heq] at hj
        exact hj

theorem probeVacant_some_seq {A C : Type} {peers : List (Nat × Peer A C)} :
    ∀ {fuel cur pid : Nat}, cur < 2 ^ 32 → probeVacant peers fuel cur = some pid →
      ∃ i < fuel, pid = (cur + i) % 2 ^ 32 ∧
        ∀ j < i, (plookup ((cur + j) % 2 ^ 32) peers).isSome := by
  intro fuel
  induction fuel with
  | zero => intro cur pid _ h; simp [probeVacant] at h
  | succ fuel ih =>
    intro cur pid hcur h
    simp only [probeVacant] at h
    cases hc : plookup cur peers with
    | none =>
      rw [hc] at h
      injection h with h2
      subst h2
      exact ⟨0, by omega, by omega, fun j hj => absurd hj (Nat.not_lt_zero j)⟩
    | some p =>
      rw [hc] at h
      obtain ⟨i, hif, hpid, hocc⟩ := ih (Nat.mod_lt _ (by norm_num)) h
      refine ⟨i + 1, by omega, ?_, ?_⟩
      · rw [hpid, Nat.mod_add_mod]
        congr 1
        omega
      · intro j hj
        cases j with
        | zero =>
          have he : (cur + 0) % 2 ^ 32 = cur := by omega
          rw [he, hc]; rfl
        | succ j' =>
          have hj' := hocc j' (by omega)
          have heq : cur + 1 + j' = cur + (j' + 1) := by omega
          rw [Nat.mod_add_mod, heq] at hj'
          exact hj'

theorem probeVacant_finds {A C : Type} {peers : List (Nat × Peer A C)} {cur v : Nat}
    (hcur : cur < 2 ^ 32) (hv : v < 2 ^ 32) (hvac : plookup v peers = none) :
    ∃ pid, probeVacant peers (2 ^ 32) cur = some pid := by
  cases hp : probeVacant peers (2 ^ 32) cur with
  | some pid => exact ⟨pid, rfl⟩
  | none =>
    exfalso
    have hocc := probeVacant_none_occupied hp hcur ((v + 2 ^ 32 - cur) % 2 ^ 32) (by omega)
    have hi : (cur + (v + 2 ^ 32 - cur) % 2 ^ 32) % 2 ^ 32 = v := by omega
    rw [hi, hvac] at hocc
    simp at hocc

theorem newPeer_spec {A C : Type} {st : NetSt A C} {conn : C} {addr : A} {pid : Nat}
    {st' : NetSt A C} (h : newPeer st conn addr = some (pid, st')) :
    plookup pid st.peers = none ∧
      st'.peers = st.peers ++ [(pid, ⟨conn, addr⟩)] ∧
      st'.nextPeerId = (pid + 1) % 2 ^ 32 := by
  simp only [newPeer] at h
  cases hp : probeVacant st.peers (2 ^ 32) (st.nextPeerId % 2 ^ 32) with
  | none => rw [hp] at h; simp at h
  | some q =>
    rw [hp] at h
    rw [Option.some.injEq, Prod.mk.injEq] at h
    obtain ⟨rfl, rfl⟩ := h
    exact ⟨probeVacant_some_vacant hp, rfl, rfl⟩

theorem newPeer_some {A C : Type} {st : NetSt A C} (conn : C) (addr : A) {v : Nat}
    (hv : v < 2 ^ 32) (hvac : plookup v st.peers = none) :
    ∃ pid st', newPeer st conn addr = some (pid, st') := by
  obtain ⟨pid, hp⟩ :=
    @probeVacant_finds A C st.peers (st.nextPeerId % 2 ^ 32) v
      (Nat.mod_lt _ (by norm_num)) hv hvac
  exact ⟨pid, _, by rw [newPeer, hp]⟩

/-! ### Registry invariant lemmas -/

theorem wfPeers_keysDistinct {A C : Type} {l : List (Nat × Peer A C)} (h : wfPeers l) :
    keysDistinct l :=
  List.Pairwise.imp (fun hp => hp.1) h

theorem keysDistinct_perase {A C : Type} (pid : Nat) {l : List (Nat × Peer A C)}
    (h : keysDistinct l) : keysDistinct (perase pid l) :=
  List.Pairwise.sublist (perase_sublist pid l) h

theorem wfPeers_perase {A C : Type} (pid : Nat) {l : List (Nat × Peer A C)}
    (h : wfPeers l) : wfPeers (perase pid l) :=
  List.Pairwise.sublist (perase_sublist pid l) h

theorem pupdate_entry_fst {A C : Type} (pid : Nat) (c : C) (e : Nat × Peer A C) :
    (if e.1 = pid then (e.1, (⟨c, e.2.addr⟩ : Peer A C)) else e).1 = e.1 := by
  by_cases h : e.1 = pid <;> simp [h]

theorem pupdate_entry_addr {A C : Type} (pid : Nat) (c : C) (e : Nat × Peer A C) :
    (if e.1 = pid then (e.1, (⟨c, e.2.addr⟩ : Peer A C)) else e).2.addr = e.2.addr := by
  by_cases h : e.1 = pid <;> simp [h]

theorem wfPeers_pupdate {A C : Type} {pid : Nat} {c : C} {l : List (Nat × Peer A C)}
    (h : wfPeers l) : wfPeers (pupdate pid c l) := by
  rw [wfPeers, pupdate, List.pairwise_map]
  refine List.Pairwise.imp ?_ h
  intro a b hab
  rw [pupdate_entry_fst, pupdate_entry_fst, pupdate_entry_addr, pupdate_entry_addr]
  exact hab

theorem keysDistinct_pupdate {A C : Type} {pid : Nat} {c : C} {l : List (Nat × Peer A C)}
    (h : keysDistinct l) : keysDistinct (pupdate pid c l) := by
  rw [keysDistinct, pupdate, List.pairwise_map]
  refine List.Pairwise.imp ?_ h
  intro a b hab
  rw [pupdate_entry_fst, pupdate_entry_fst]
  exact hab

theorem wfPeers_append_one {A C : Type} {l : List (Nat × Peer A C)} {pid : Nat}
    {p : Peer A C} (h : wfPeers l) (hk : ∀ e ∈ l, e.1 ≠ pid)
    (ha : ∀ e ∈ l, e.2.addr ≠ p.addr) : wfPeers (l ++ [(pid, p)]) := by
  rw [wfPeers, List.pairwise_append]
  refine ⟨h, List.pairwise_singleton _ _, ?_⟩
  intro a ha' b hb
  simp only [List.mem_singleton] at hb
  subst hb
  exact ⟨hk a ha', ha a ha'⟩

theorem plookup_of_mem {A C : Type} {l : List (Nat × Peer A C)} {pid : Nat} {p : Peer A C}
    (hk : keysDistinct l) (hm : (pid, p) ∈ l) : plookup pid l = some p := by
  induction l with
  | nil => simp at hm
  | cons e es ih =>
    rw [keysDistinct, List.pairwise_cons] at hk
    rcases List.mem_cons.mp hm with he | hm'
    · rw [← he]; simp [plookup]
    · have hne : e.1 ≠ pid := hk.1 (pid, p) hm'
      simp [plookup, hne, ih hk.2 hm']

theorem pidFromAddr_of_mem {A C : Type} [DecidableEq A] {l : List (Nat × Peer A C)}
    {pid : Nat} {p : Peer A C} (hw : wfPeers l) (hm : (pid, p) ∈ l) :
    pidFromAddr l p.addr = some pid := by
  induction l with
  | nil => simp at hm
  | cons e es ih =>
    rw [wfPeers, List.pairwise_cons] at hw
    rcases List.mem_cons.mp hm with he | hm'
    · rw [← he]; simp [pidFromAddr]
    · have hne : e.2.addr ≠ p.addr := (hw.1 (pid, p) hm').2
      simp [pidFromAddr, hne, ih hw.2 hm']

theorem addrs_ne_of_mem {A C : Type} {l : List (Nat × Peer A C)} {p q : Nat}
    {a b : Peer A C} (hw : wfPeers l) (hp : (p, a) ∈ l) (hq : (q, b) ∈ l) (hne : p ≠ q) :
    a.addr ≠ b.addr := by
  induction l with
  | nil => simp at hp
  | cons e es ih =>
    rw [wfPeers, List.pairwise_cons] at hw
    rcases List.mem_cons.mp hp with hep | hp' <;> rcases List.mem_cons.mp hq with heq | hq'
    · exfalso
      rw [← hep] at heq
      injection heq with h1 h2
      exact hne h1.symm
    · have h := hw.1 (q, b) hq'
      rw [← hep] at h
      exact h.2
    · have h := hw.1 (p, a) hp'
      rw [← heq] at h
      exact fun hc => h.2 hc.symm
    · exact ih hw.2 hp' hq'

/-! ### Eager-removal (ReceivePacket::connected) lemmas -/

theorem isDisc_connless (d : Bytes) : isDisc (.connless d) = false := rfl

theorem isDisc_connected (d : Bytes) (v : Bool) : isDisc (.connected d v) = false := rfl

theorem isDisc_disconnect (r : Bytes) : isDisc (.disconnect r) = true := rfl

theorem countD_cons_disc (r : Bytes) (cs : List ReceiveChunk) :
    (ReceiveChunk.disconnect r :: cs).countP isDisc = cs.countP isDisc + 1 := by
  simp [List.countP_cons, isDisc_disconnect]

theorem countD_cons_connless (d : Bytes) (cs : List ReceiveChunk) :
    (ReceiveChunk.connless d :: cs).countP isDisc = cs.countP isDisc := by
  simp [List.countP_cons, isDisc_connless]

theorem countD_cons_connected (d : Bytes) (v : Bool) (cs : List ReceiveChunk) :
    (ReceiveChunk.connected d v :: cs).countP isDisc = cs.countP isDisc := by
  simp [List.countP_cons, isDisc_connected]

theorem removeDiscs_zero {A C : Type} {pid : Nat} {cs : List ReceiveChunk} {st : NetSt A C}
    (h : cs.countP isDisc = 0) : removeDiscs pid cs st = .ok st := by
  induction cs generalizing st with
  | nil => rfl
  | cons c cs ih =>
    cases c with
    | disconnect r => rw [countD_cons_disc] at h; omega
    | connless d =>
      rw [countD_cons_connless] at h
      simp only [removeDiscs]
      exact ih h
    | connected d v =>
      rw [countD_cons_connected] at h
      simp only [removeDiscs]
      exact ih h

theorem removeDiscs_dead {A C : Type} {pid : Nat} {cs : List ReceiveChunk} {st : NetSt A C}
    (hd : plookup pid st.peers = none) (h : 1 ≤ cs.countP isDisc) :
    removeDiscs pid cs st = .error "invalid pid" := by
  induction cs generalizing st with
  | nil => simp at h
  | cons c cs ih =>
    cases c with
    | disconnect r => simp only [removeDiscs, removePeer, hd]
    | connless d =>
      rw [countD_cons_connless] at h
      simp only [removeDiscs]
      exact ih hd h
    | connected d v =>
      rw [countD_cons_connected] at h
      simp only [removeDiscs]
      exact ih hd h

theorem removeDiscs_one {A C : Type} {pid : Nat} {cs : List ReceiveChunk} {st : NetSt A C}
    {p : Peer A C} (hk : keysDistinct st.peers) (hl : plookup pid st.peers = some p)
    (h : cs.countP isDisc = 1) :
    removeDiscs pid cs st = .ok ⟨perase pid st.peers, st.nextPeerId⟩ := by
  induction cs generalizing st with
  | nil => simp at h
  | cons c cs ih =>
    cases c with
    | disconnect r =>
      rw [countD_cons_disc] at h
      simp only [removeDiscs, removePeer, hl]
      exact removeDiscs_zero (by omega)
    | connless d =>
      rw [countD_cons_connless] at h
      simp only [removeDiscs]
      exact ih hk hl h
    | connected d v =>
      rw [countD_cons_connected] at h
      simp only [removeDiscs]
      exact ih hk hl h

theorem removeDiscs_two {A C : Type} {pid : Nat} {cs : List ReceiveChunk} {st : NetSt A C}
    {p : Peer A C} (hk : keysDistinct st.peers) (hl : plookup pid st.peers = some p)
    (h : 2 ≤ cs.countP isDisc) : removeDiscs pid cs st = .error "invalid pid" := by
  induction cs generalizing st with
  | nil => simp at h
  | cons c cs ih =>
    cases c with
    | disconnect r =>
      rw [countD_cons_disc] at h
      simp only [removeDiscs, removePeer, hl]
      exact removeDiscs_dead (plookup_perase_self hk) (by omega)
    | connless d =>
      rw [countD_cons_connless] at h
      simp only [removeDiscs]
      exact ih hk hl h
    | connected d v =>
      rw [countD_cons_connected] at h
      simp only [removeDiscs]
      exact ih hk hl h

theorem removeDiscs_wf {A C : Type} {pid : Nat} {cs : List ReceiveChunk} {st st' : NetSt A C}
    (hw : wfPeers st.peers) (h : removeDiscs pid cs st = .ok st') : wfPeers st'.peers := by
  induction cs generalizing st with
  | nil =>
    simp only [removeDiscs, Except.ok.injEq] at h
    rw [← h]
    exact hw
  | cons c cs ih =>
    cases c with
    | disconnect r =>
      simp only [removeDiscs, removePeer] at h
      cases hl : plookup pid st.peers with
      | none => rw [hl] at h; simp at h
      | some p =>
        rw [hl] at h
        exact ih (wfPeers_perase pid hw) h
    | connless d =>
      simp only [removeDiscs] at h
      exact ih hw h
    | connected d v =>
      simp only [removeDiscs] at h
      exact ih hw h

/-! ### The operations preserve the registry invariant -/

theorem connect_wf {A C E : Type} [DecidableEq A] {O : ConnOps C E} {st : NetSt A C}
    {addr : A} {pid : Nat} {st' : NetSt A C} {e : Except E Unit}
    (hw : wfPeers st.peers) (hfresh : pidFromAddr st.peers addr = none)
    (h : Net.connect O st addr = .ok (pid, st', e)) : wfPeers st'.peers := by
  simp only [Net.connect] at h
  cases hn : newPeer st O.new addr with
  | none => rw [hn] at h; simp at h
  | some pr =>
    rw [hn] at h
    obtain ⟨pid2, st2⟩ := pr
    simp only [Except.ok.injEq, Prod.mk.injEq] at h
    obtain ⟨rfl, rfl, rfl⟩ := h
    obtain ⟨hvac, hpeers, -⟩ := newPeer_spec hn
    simp only [updateConn]
    apply wfPeers_pupdate
    rw [hpeers]
    apply wfPeers_append_one hw
    · exact plookup_eq_none_iff.mp hvac
    · exact pidFromAddr_eq_none_iff.mp hfresh

theorem disconnect_wf {A C E : Type} [DecidableEq A] {O : ConnOps C E} {st : NetSt A C}
    {pid : Nat} {reason : Bytes} {st' : NetSt A C} {e : Except E Unit}
    (hw : wfPeers st.peers) (h : Net.disconnect O st pid reason = .ok (st', e)) :
    wfPeers st'.peers := by
  simp only [Net.disconnect] at h
  cases hl : plookup pid st.peers with
  | none => rw [hl] at h; simp at h
  | some p =>
    rw [hl] at h
    simp only [Except.ok.injEq, Prod.mk.injEq] at h
    obtain ⟨rfl, rfl⟩ := h
    simp only [updateConn]
    exact wfPeers_pupdate hw

theorem send_wf {A C E : Type} [DecidableEq A] {O : ConnOps C E} {maxData : Nat}
    {ser : Bytes → Bytes} {st : NetSt A C} {cbf : A → Bytes → Option E} {ch : Chunk A}
    {st' : NetSt A C} {log : List (A × Bytes)} {r : Except (NErr E) Unit}
    (hw : wfPeers st.peers) (h : Net.send O maxData ser st cbf ch = .ok (st', log, r)) :
    wfPeers st'.peers := by
  obtain ⟨cdata, caddr⟩ := ch
  cases caddr with
  | nonPeerConnless a =>
    simp only [Net.send] at h
    cases hpa : pidFromAddr st.peers a with
    | some pid =>
      simp only [hpa] at h
      cases hl : plookup pid st.peers with
      | none => simp only [hl] at h; simp at h
      | some p =>
        simp only [hl] at h
        simp only [Except.ok.injEq, Prod.mk.injEq] at h
        obtain ⟨rfl, -, -⟩ := h
        simp only [updateConn]
        exact wfPeers_pupdate hw
    | none =>
      simp only [hpa] at h
      cases hs : Net.sendConnless maxData ser cbf a cdata with
      | error m => simp only [hs] at h; simp at h
      | ok pr =>
        simp only [hs] at h
        obtain ⟨log2, r2⟩ := pr
        simp only [Except.ok.injEq, Prod.mk.injEq] at h
        obtain ⟨rfl, -, -⟩ := h
        exact hw
  | peer pid ty =>
    simp only [Net.send] at h
    cases hl : plookup pid st.peers with
    | none => simp only [hl] at h; simp at h
    | some p =>
      simp only [hl] at h
      cases ty <;>
        · simp only [Except.ok.injEq, Prod.mk.injEq] at h
          obtain ⟨rfl, -, -⟩ := h
          simp only [updateConn]
          exact wfPeers_pupdate hw

theorem feed_wf {A C E : Type} [DecidableEq A] {O : ConnOps C E} {dec : Bytes → Option Packet}
    {st : NetSt A C} {addr : A} {data : Bytes} {pkt : ReceivePacketT A} {st' : NetSt A C}
    {e : Except E Unit} (hw : wfPeers st.peers)
    (h : Net.feedImpl O dec st addr data = .ok (pkt, st', e)) : wfPeers st'.peers := by
  simp only [Net.feedImpl] at h
  cases hpa : pidFromAddr st.peers addr with
  | some pid =>
    simp only [hpa] at h
    cases hl : plookup pid st.peers with
    | none => simp only [hl] at h; simp at h
    | some p =>
      simp only [hl] at h
      cases hrc : receivePacketConnected pid (O.feed p.conn data).2.1
          (updateConn st pid (O.feed p.conn data).1) with
      | error m => simp only [hrc] at h; simp at h
      | ok pr =>
        simp only [hrc] at h
        obtain ⟨pkt2, st2⟩ := pr
        simp only [Except.ok.injEq, Prod.mk.injEq] at h
        obtain ⟨rfl, rfl, rfl⟩ := h
        have hw2 : wfPeers (updateConn st pid (O.feed p.conn data).1).peers := by
          simp only [updateConn]
          exact wfPeers_pupdate hw
        simp only [receivePacketConnected] at hrc
        cases hrd : removeDiscs pid (O.feed p.conn data).2.1
            (updateConn st pid (O.feed p.conn data).1) with
        | error m => simp only [hrd] at hrc; simp at hrc
        | ok st3 =>
          simp only [hrd] at hrc
          simp only [Except.ok.injEq, Prod.mk.injEq] at hrc
          obtain ⟨-, rfl⟩ := hrc
          exact removeDiscs_wf hw2 hrd
  | none =>
    simp only [hpa] at h
    cases hd : dec data with
    | none =>
      simp only [hd] at h
      simp only [Except.ok.injEq, Prod.mk.injEq] at h
      obtain ⟨-, rfl, -⟩ := h
      exact hw
    | some pk =>
      simp only [hd] at h
      cases pk with
      | connless d =>
        simp only [Except.ok.injEq, Prod.mk.injEq] at h
        obtain ⟨-, rfl, -⟩ := h
        exact hw
      | connected b =>
        cases b with
        | false =>
          simp only [Except.ok.injEq, Prod.mk.injEq] at h
          obtain ⟨-, rfl, -⟩ := h
          exact hw
        | true =>
          cases hn : newPeer st O.new addr with
          | none => simp only [hn] at h; simp at h
          | some pr =>
            simp only [hn] at h
            obtain ⟨pid2, st2⟩ := pr
            cases hfl : (O.feed O.new data).2.1 with
            | cons c cs => simp only [hfl] at h; simp at h
            | nil =>
              simp only [hfl] at h
              simp only [Except.ok.injEq, Prod.mk.injEq] at h
              obtain ⟨-, rfl, -⟩ := h
              obtain ⟨hvac, hpeers, -⟩ := newPeer_spec hn
              simp only [updateConn]
              apply wfPeers_pupdate
              rw [hpeers]
              apply wfPeers_append_one hw
              · exact plookup_eq_none_iff.mp hvac
              · exact pidFromAddr_eq_none_iff.mp hpa

theorem reaches_wf {A C E : Type} [DecidableEq A] {O : ConnOps C E}
    {dec : Bytes → Option Packet} {maxData : Nat} {ser : Bytes → Bytes} {st : NetSt A C}
    (h : ReachesGood O dec maxData ser st) : wfPeers st.peers := by
  induction h with
  | init => exact List.Pairwise.nil
  | connectStep h hfresh hc ih => exact connect_wf ih hfresh hc
  | disconnectStep h hd ih => exact disconnect_wf ih hd
  | sendStep h hs ih => exact send_wf ih hs
  | feedStep h hf ih => exact feed_wf ih hf

/-! ### Concrete instantiations used by the witnesses -/

/-- A trivial Connection model over unit state: every operation succeeds and
feed yields no chunks. -/
def trivOps : ConnOps Unit Nat where
  new := ()
  connect := fun c => (c, .ok ())
  disconnect := fun c _ => (c, .ok ())
  send := fun c _ _ => (c, .ok ())
  sendConnless := fun c _ => (c, .ok ())
  feed := fun c _ => (c, [], .ok ())

/-- A Connection model whose feed yields a single Disconnect with reason [7]. -/
def discOps : ConnOps Unit Nat where
  new := ()
  connect := fun c => (c, .ok ())
  disconnect := fun c _ => (c, .ok ())
  send := fun c _ _ => (c, .ok ())
  sendConnless := fun c _ => (c, .ok ())
  feed := fun c _ => (c, [.disconnect [7]], .ok ())

/-- A decoder that decodes nothing (malformed bytes). -/
def decNone : Bytes → Option Packet := fun _ => none

/-- A decoder that sees every datagram as a connless packet with its bytes. -/
def decConnless : Bytes → Option Packet := fun d => some (.connless d)

/-- A decoder that sees every datagram as a connected Control-Connect packet. -/
def decConnect : Bytes → Option Packet := fun _ => some (.connected true)

/-- A decoder that sees every datagram as a stray connected non-connect packet. -/
def decStray : Bytes → Option Packet := fun _ => some (.connected false)

/-- Identity serialization for the connless wire form. -/
def serId : Bytes → Bytes := fun d => d

/-- A callback that always succeeds. -/
def cbOk : Nat → Bytes → Option Nat := fun _ _ => none

/-- A callback that always fails with error 42. -/
def cbFail : Nat → Bytes → Option Nat := fun _ _ => some 42

/-! ### The claims -/

/-- Claim C1: for a feed whose source address resolves to live peer `pid`,
when the inner Connection iterator contains a Disconnect (and, as the
Connection contract guarantees, no second one), the peer entry is removed
during construction of the returned ReceivePacket: feed returns normally,
immediately afterwards `peer_addr pid` is already None, and the returned
iterator still yields the `Disconnect (pid, reason)` event. -/
theorem claim_C1 {A C E : Type} [DecidableEq A] (O : ConnOps C E) (dec : Bytes → Option Packet)
    (st : NetSt A C) (addr : A) (data : Bytes) (pid : Nat) (p : Peer A C)
    (c' : C) (chunks : List ReceiveChunk) (e : Except E Unit) (r : Bytes)
    (hk : keysDistinct st.peers)
    (hpa : pidFromAddr st.peers addr = some pid)
    (hl : plookup pid st.peers = some p)
    (hfeed : O.feed p.conn data = (c', chunks, e))
    (hmem : ReceiveChunk.disconnect r ∈ chunks)
    (hcount : chunks.countP isDisc = 1) :
    ∃ st', Net.feedImpl O dec st addr data = .ok (.connected pid chunks, st', e) ∧
      Net.peerAddr st' pid = none ∧
      ChunkOrEvent.disconnect pid r ∈
        (ReceivePacketT.connected pid chunks : ReceivePacketT A).toList := by
  have hk2 : keysDistinct (updateConn st pid c').peers := by
    simp only [updateConn]
    exact keysDistinct_pupdate hk
  have hl2 : plookup pid (updateConn st pid c').peers = some ⟨c', p.addr⟩ := by
    simp only [updateConn, pupdate_plookup_self, hl, Option.map_some']
  have hrd := removeDiscs_one hk2 hl2 hcount
  refine ⟨⟨perase pid (updateConn st pid c').peers, (updateConn st pid c').nextPeerId⟩,
    ?_, ?_, ?_⟩
  · simp only [Net.feedImpl, hpa, hl, hfeed, receivePacketConnected, hrd]
  · simp [Net.peerAddr, plookup_perase_self hk2]
  · simp only [ReceivePacketT.toList]
    exact List.mem_map_of_mem _ hmem

/-- Claim C10: with `pid` live, the construction done by
`ReceivePacket::connected` calls remove_peer once per Disconnect element of
the inner iterator, so it panics ("invalid pid") exactly when the inner
iterator contains two or more Disconnects, and returns normally exactly when
it contains at most one. -/
theorem claim_C10 {A C : Type} (st : NetSt A C) (pid : Nat) (p : Peer A C)
    (chunks : List ReceiveChunk)
    (hk : keysDistinct st.peers) (hl : plookup pid st.peers = some p) :
    ((∃ pkt st', receivePacketConnected pid chunks st = .ok (pkt, st')) ↔
      chunks.countP isDisc ≤ 1) ∧
    (2 ≤ chunks.countP isDisc →
      receivePacketConnected pid chunks st = .error "invalid pid") := by
  have h2 : 2 ≤ chunks.countP isDisc →
      receivePacketConnected pid chunks st = .error "invalid pid" := by
    intro hc
    simp only [receivePacketConnected, removeDiscs_two hk hl hc]
  refine ⟨⟨?_, ?_⟩, h2⟩
  · rintro ⟨pkt, st', hok⟩
    by_contra hgt
    rw [h2 (by omega)] at hok
    exact absurd hok (by simp)
  · intro hle
    rcases Nat.lt_or_ge (chunks.countP isDisc) 1 with h0 | h1
    · exact ⟨.connected pid chunks, st, by simp only [receivePacketConnected,
        removeDiscs_zero (by omega : chunks.countP isDisc = 0)]⟩
    · exact ⟨.connected pid chunks, ⟨perase pid st.peers, st.nextPeerId⟩,
        by simp only [receivePacketConnected,
          removeDiscs_one hk hl (by omega : chunks.countP isDisc = 1)]⟩

/-- Claim C2: in every state reachable by Net operations in which connect is
never invoked on an address that already has a live peer, distinct live peers
have distinct addresses (their peer_addr values differ), and pid_from_addr
maps each live peer's address back to exactly that peer. -/
theorem claim_C2 {A C E : Type} [DecidableEq A] (O : ConnOps C E) (dec : Bytes → Option Packet)
    (maxData : Nat) (ser : Bytes → Bytes) (st : NetSt A C)
    (h : ReachesGood O dec maxData ser st) :
    (∀ e1 ∈ st.peers, ∀ e2 ∈ st.peers, e1.1 ≠ e2.1 →
      Net.peerAddr st e1.1 ≠ Net.peerAddr st e2.1) ∧
    (∀ e ∈ st.peers, pidFromAddr st.peers e.2.addr = some e.1) := by
  have hw := reaches_wf h
  constructor
  · intro e1 h1 e2 h2 hne
    have hm1 : (e1.1, e1.2) ∈ st.peers := by rw [Prod.mk.eta]; exact h1
    have hm2 : (e2.1, e2.2) ∈ st.peers := by rw [Prod.mk.eta]; exact h2
    have hl1 : plookup e1.1 st.peers = some e1.2 :=
      plookup_of_mem (wfPeers_keysDistinct hw) hm1
    have hl2 : plookup e2.1 st.peers = some e2.2 :=
      plookup_of_mem (wfPeers_keysDistinct hw) hm2
    simp only [Net.peerAddr, hl1, hl2, Option.map_some']
    intro hc
    injection hc with hc
    exact addrs_ne_of_mem hw hm1 hm2 hne hc
  · intro e he
    have hm : (e.1, e.2) ∈ st.peers := by rw [Prod.mk.eta]; exact he
    exact pidFromAddr_of_mem hw hm

/-- Claim C3: for a feed from an address with no live peer whose datagram
decodes to a connected Control-Connect packet (and with a vacant PeerId
available), feed allocates a new peer at that address, replays the datagram
through the new peer's Connection feed, asserts the resulting inner iterator
is empty, and returns an iterator yielding exactly `Connect new_pid`; when
the replayed feed is not empty the assertion panics. -/
theorem claim_C3 {A C E : Type} [DecidableEq A] (O : ConnOps C E) (dec : Bytes → Option Packet)
    (st : NetSt A C) (addr : A) (data : Bytes) (v : Nat)
    (hv : v < 2 ^ 32) (hvac : plookup v st.peers = none)
    (hpa : pidFromAddr st.peers addr = none)
    (hdec : dec data = some (.connected true)) :
    (∀ c' e, O.feed O.new data = (c', [], e) →
      ∃ pid st', Net.feedImpl O dec st addr data = .ok (.connect pid, st', e) ∧
        plookup pid st.peers = none ∧
        Net.peerAddr st' pid = some addr ∧
        (ReceivePacketT.connect pid : ReceivePacketT A).toList = [ChunkOrEvent.connect pid]) ∧
    (∀ c' ch cs e, O.feed O.new data = (c', ch :: cs, e) →
      Net.feedImpl O dec st addr data =
        .error "assertion failed: inner iterator not empty") := by
  obtain ⟨pid, st1, hn⟩ := newPeer_some O.new addr hv hvac
  obtain ⟨hvacp, hpeers1, -⟩ := newPeer_spec hn
  constructor
  · intro c' e hfeed
    refine ⟨pid, updateConn st1 pid c', ?_, hvacp, ?_, rfl⟩
    · simp only [Net.feedImpl, hpa, hdec, hn, hfeed]
    · simp [Net.peerAddr, updateConn, pupdate_plookup_self, hpeers1, plookup_append,
        hvacp, plookup]
  · intro c' ch cs e hfeed
    simp only [Net.feedImpl, hpa, hdec, hn, hfeed]

/-- Claim C4: for a feed from an address with no live peer whose datagram
decodes to a connless packet with payload d, feed returns the one-element
iterator producing the chunk with address NonPeerConnless(addr) and data d,
an Ok send result, and an unchanged registry (no peer created). -/
theorem claim_C4 {A C E : Type} [DecidableEq A] (O : ConnOps C E) (dec : Bytes → Option Packet)
    (st : NetSt A C) (addr : A) (data d : Bytes)
    (hpa : pidFromAddr st.peers addr = none)
    (hdec : dec data = some (.connless d)) :
    Net.feedImpl O dec st addr data = .ok (.connless addr d, st, .ok ()) ∧
    (ReceivePacketT.connless addr d).toList = [ChunkOrEvent.chunk ⟨d, .nonPeerConnless addr⟩] :=
  ⟨by simp only [Net.feedImpl, hpa, hdec], rfl⟩

/-- Claim C6: for a feed from an address with no live peer whose datagram
neither decodes to a connless packet nor to a connected Control-Connect
packet, feed returns the empty iterator with an Ok result and the registry is
unchanged (no peer created or removed). -/
theorem claim_C6 {A C E : Type} [DecidableEq A] (O : ConnOps C E) (dec : Bytes → Option Packet)
    (st : NetSt A C) (addr : A) (data : Bytes)
    (hpa : pidFromAddr st.peers addr = none)
    (hdec : dec data = none ∨ dec data = some (.connected false)) :
    Net.feedImpl O dec st addr data = .ok (.none, st, .ok ()) ∧
    (ReceivePacketT.none : ReceivePacketT A).toList = [] := by
  rcases hdec with h | h <;> exact ⟨by simp only [Net.feedImpl, hpa, h], rfl⟩

/-- Claim C5: Net::send dispatches on the chunk address: NonPeerConnless with
a live peer at that address routes through that peer's Connection
send_connless; NonPeerConnless with no peer delegates to the ConnlessBuilder
via Net::send_connless; Peer-Connless calls Connection send_connless;
Peer-Connected calls Connection send with vital false; Peer-Vital calls
Connection send with vital true. -/
theorem claim_C5 {A C E : Type} [DecidableEq A] (O : ConnOps C E) (maxData : Nat)
    (ser : Bytes → Bytes) (st : NetSt A C) (cbf : A → Bytes → Option E) (d : Bytes)
    (a : A) (pid : Nat) (p : Peer A C) :
    (pidFromAddr st.peers a = some pid → plookup pid st.peers = some p →
      Net.send O maxData ser st cbf ⟨d, .nonPeerConnless a⟩ =
        .ok (updateConn st pid (O.sendConnless p.conn d).1, [],
          (O.sendConnless p.conn d).2)) ∧
    (pidFromAddr st.peers a = none →
      Net.send O maxData ser st cbf ⟨d, .nonPeerConnless a⟩ =
        match Net.sendConnless maxData ser cbf a d with
        | .error m => .error m
        | .ok (log, r) => .ok (st, log, r)) ∧
    (plookup pid st.peers = some p →
      Net.send O maxData ser st cbf ⟨d, .peer pid .connless⟩ =
        .ok (updateConn st pid (O.sendConnless p.conn d).1, [],
          (O.sendConnless p.conn d).2)) ∧
    (plookup pid st.peers = some p →
      Net.send O maxData ser st cbf ⟨d, .peer pid .connected⟩ =
        .ok (updateConn st pid (O.send p.conn d false).1, [], (O.send p.conn d false).2)) ∧
    (plookup pid st.peers = some p →
      Net.send O maxData ser st cbf ⟨d, .peer pid .vital⟩ =
        .ok (updateConn st pid (O.send p.conn d true).1, [], (O.send p.conn d true).2)) := by
  refine ⟨?_, ?_, ?_, ?_, ?_⟩
  · intro h1 h2
    simp only [Net.send, h1, h2]
  · intro h1
    simp only [Net.send, h1]
  · intro h1
    simp only [Net.send, h1]
  · intro h1
    simp only [Net.send, h1]
  · intro h1
    simp only [Net.send, h1]

/-- Claim C7: whenever some PeerId slot is vacant, new_peer terminates and
returns a vacant PeerId, appending the new peer and setting next_peer_id to
the wrapping successor of the returned id; the returned id is the first
vacant id in the wrapping probe sequence starting at next_peer_id, every
earlier probe in the sequence having hit a live peer. -/
theorem claim_C7 {A C : Type} (st : NetSt A C) (conn : C) (addr : A) (v : Nat)
    (hv : v < 2 ^ 32) (hvac : plookup v st.peers = none) :
    ∃ pid st', newPeer st conn addr = some (pid, st') ∧
      plookup pid st.peers = none ∧
      st'.peers = st.peers ++ [(pid, ⟨conn, addr⟩)] ∧
      st'.nextPeerId = (pid + 1) % 2 ^ 32 ∧
      ∃ i < 2 ^ 32, pid = (st.nextPeerId % 2 ^ 32 + i) % 2 ^ 32 ∧
        ∀ j < i, (plookup ((st.nextPeerId % 2 ^ 32 + j) % 2 ^ 32) st.peers).isSome := by
  obtain ⟨pid, st', hn⟩ := newPeer_some conn addr hv hvac
  obtain ⟨hvacp, hpeers, hnext⟩ := newPeer_spec hn
  have hp : probeVacant st.peers (2 ^ 32) (st.nextPeerId % 2 ^ 32) = some pid := by
    simp only [newPeer] at hn
    cases hq : probeVacant st.peers (2 ^ 32) (st.nextPeerId % 2 ^ 32) with
    | none => rw [hq] at hn; simp at hn
    | some q =>
      rw [hq] at hn
      simp only [Option.some.injEq, Prod.mk.injEq] at hn
      rw [hn.1]
  obtain ⟨i, hif, hpid, hocc⟩ := probeVacant_some_seq (Nat.mod_lt _ (by norm_num)) hp
  exact ⟨pid, st', hn, hvacp, hpeers, hnext, i, hif, hpid, hocc⟩

/-- Claim C8: a connless send whose payload exceeds the codec's maximum data
length surfaces Error::TooLongData and the callback is never invoked; a codec
capacity error hits the unreachable arm (panic); a callback error is
propagated unchanged as Error::Callback. -/
theorem claim_C8 {A E : Type} (maxData : Nat) (ser : Bytes → Bytes)
    (cbf : A → Bytes → Option E) (addr : A) (d : Bytes) (e : E) :
    (maxData < d.length →
      Net.sendConnless maxData ser cbf addr d = .ok ([], .error .tooLongData)) ∧
    (builderSend cbf addr (.error .capacity) =
      (.error "too short buffer provided" :
        Except String (List (A × Bytes) × Except (NErr E) Unit))) ∧
    (d.length ≤ maxData → cbf addr (ser d) = some e →
      Net.sendConnless maxData ser cbf addr d =
        .ok ([(addr, ser d)], .error (.callback e))) := by
  refine ⟨?_, rfl, ?_⟩
  · intro h
    simp only [Net.sendConnless, writeConnless, if_pos h, builderSend]
  · intro h hc
    simp only [Net.sendConnless, writeConnless,
      if_neg (by omega : ¬ maxData < d.length), builderSend, hc]

/-- Claim C9, counterexample: peer_addr called with a PeerId absent from the
registry does not panic; it returns None (the source routes it through the
optional get, not through the panicking index). -/
theorem claim_C9_cex : Net.peerAddr (Net.new : NetSt Nat Unit) 0 = none := rfl

/-- Claim C9, amended: disconnect and send-to-a-peer-chunk panic with
"invalid pid" when the PeerId is not live; peer_addr instead returns None
without panicking; and on a fully occupied registry new_peer does not panic
but loops forever: its probe loop can only ever return an id whose slot is
vacant, so with all 2^32 slots occupied it never returns. -/
theorem claim_C9_amended {A C E : Type} [DecidableEq A] (O : ConnOps C E) (maxData : Nat)
    (ser : Bytes → Bytes) (st : NetSt A C) (cbf : A → Bytes → Option E) (pid : Nat)
    (reason d : Bytes) (ty : ChunkType) (hl : plookup pid st.peers = none) :
    Net.disconnect O st pid reason = .error "invalid pid" ∧
    Net.send O maxData ser st cbf ⟨d, .peer pid ty⟩ = .error "invalid pid" ∧
    Net.peerAddr st pid = none ∧
    (∀ (peers : List (Nat × Peer A C)) (fuel cur q : Nat),
      probeVacant peers fuel cur = some q → plookup q peers = none) := by
  refine ⟨?_, ?_, ?_, fun peers fuel cur q hq => probeVacant_some_vacant hq⟩
  · simp only [Net.disconnect, hl]
  · simp only [Net.send, hl]
  · simp only [Net.peerAddr, hl, Option.map_none']

/-! ### Witnesses -/

/-- Witness for C1: a registry with one peer (pid 5 at address 10), fed a
datagram whose Connection feed yields one Disconnect with reason [7]. -/
theorem claim_C1_wit :
    ∃ st', Net.feedImpl discOps decNone (⟨[(5, ⟨(), 10⟩)], 6⟩ : NetSt Nat Unit) 10 [] =
        .ok (.connected 5 [.disconnect [7]], st', .ok ()) ∧
      Net.peerAddr st' 5 = none ∧
      ChunkOrEvent.disconnect 5 [7] ∈
        (ReceivePacketT.connected 5 [.disconnect [7]] : ReceivePacketT Nat).toList :=
  claim_C1 discOps decNone (⟨[(5, ⟨(), 10⟩)], 6⟩ : NetSt Nat Unit) 10 [] 5 ⟨(), 10⟩ ()
    [.disconnect [7]] (.ok ()) [7] (by simp [keysDistinct]) rfl rfl rfl
    (by simp) (by decide)

/-- Witness for C10: a live peer and an inner iterator with two Disconnects
make the wrapper construction panic with "invalid pid". -/
theorem claim_C10_wit :
    receivePacketConnected 2 [ReceiveChunk.disconnect [], ReceiveChunk.disconnect []]
      (⟨[(2, ⟨(), 9⟩)], 3⟩ : NetSt Nat Unit) = .error "invalid pid" :=
  (claim_C10 (⟨[(2, ⟨(), 9⟩)], 3⟩ : NetSt Nat Unit) 2 ⟨(), 9⟩
    [ReceiveChunk.disconnect [], ReceiveChunk.disconnect []]
    (by simp [keysDistinct]) rfl).2 (by decide)

/-- Witness for C2: the state reached by connecting to two fresh addresses
satisfies the distinct-address invariant. -/
theorem claim_C2_wit :
    ReachesGood trivOps decNone 8 serId
      (⟨[(0, ⟨(), 10⟩), (1, ⟨(), 20⟩)], 2⟩ : NetSt Nat Unit) ∧
    (∀ e1 ∈ (⟨[(0, ⟨(), 10⟩), (1, ⟨(), 20⟩)], 2⟩ : NetSt Nat Unit).peers,
      ∀ e2 ∈ (⟨[(0, ⟨(), 10⟩), (1, ⟨(), 20⟩)], 2⟩ : NetSt Nat Unit).peers,
        e1.1 ≠ e2.1 →
        Net.peerAddr (⟨[(0, ⟨(), 10⟩), (1, ⟨(), 20⟩)], 2⟩ : NetSt Nat Unit) e1.1 ≠
          Net.peerAddr (⟨[(0, ⟨(), 10⟩), (1, ⟨(), 20⟩)], 2⟩ : NetSt Nat Unit) e2.1) ∧
    (∀ e ∈ (⟨[(0, ⟨(), 10⟩), (1, ⟨(), 20⟩)], 2⟩ : NetSt Nat Unit).peers,
      pidFromAddr (⟨[(0, ⟨(), 10⟩), (1, ⟨(), 20⟩)], 2⟩ : NetSt Nat Unit).peers e.2.addr =
        some e.1) := by
  have hc1 : Net.connect trivOps (Net.new : NetSt Nat Unit) 10 =
      .ok (0, (⟨[(0, ⟨(), 10⟩)], 1⟩ : NetSt Nat Unit), .ok ()) := rfl
  have hf1 : pidFromAddr (Net.new : NetSt Nat Unit).peers (10 : Nat) = none := rfl
  have hc2 : Net.connect trivOps (⟨[(0, ⟨(), 10⟩)], 1⟩ : NetSt Nat Unit) 20 =
      .ok (1, (⟨[(0, ⟨(), 10⟩), (1, ⟨(), 20⟩)], 2⟩ : NetSt Nat Unit), .ok ()) := rfl
  have hf2 : pidFromAddr (⟨[(0, ⟨(), 10⟩)], 1⟩ : NetSt Nat Unit).peers (20 : Nat) = none :=
    rfl
  have h2 : ReachesGood trivOps decNone 8 serId
      (⟨[(0, ⟨(), 10⟩), (1, ⟨(), 20⟩)], 2⟩ : NetSt Nat Unit) :=
    ReachesGood.connectStep (ReachesGood.connectStep ReachesGood.init hf1 hc1) hf2 hc2
  exact ⟨h2, claim_C2 trivOps decNone 8 serId _ h2⟩

/-- Witness for C3: feeding a Control-Connect datagram from an unknown
address into an empty Net yields exactly the Connect event for the new pid. -/
theorem claim_C3_wit :
    ∃ pid st', Net.feedImpl trivOps decConnect (Net.new : NetSt Nat Unit) 10 [] =
        .ok (.connect pid, st', .ok ()) ∧
      plookup pid (Net.new : NetSt Nat Unit).peers = none ∧
      Net.peerAddr st' pid = some 10 ∧
      (ReceivePacketT.connect pid : ReceivePacketT Nat).toList =
        [ChunkOrEvent.connect pid] :=
  (claim_C3 trivOps decConnect (Net.new : NetSt Nat Unit) 10 [] 0 (by norm_num) rfl rfl
    rfl).1 () (.ok ()) rfl

/-- Witness for C4: feeding a datagram that decodes as connless from an
unknown address yields the one NonPeerConnless chunk and leaves the registry
unchanged. -/
theorem claim_C4_wit :
    Net.feedImpl trivOps decConnless (Net.new : NetSt Nat Unit) 10 [1, 2] =
      .ok (.connless 10 [1, 2], (Net.new : NetSt Nat Unit), .ok ()) ∧
    (ReceivePacketT.connless (10 : Nat) [1, 2]).toList =
      [ChunkOrEvent.chunk ⟨[1, 2], .nonPeerConnless 10⟩] :=
  claim_C4 trivOps decConnless (Net.new : NetSt Nat Unit) 10 [1, 2] [1, 2] rfl rfl

/-- Witness for C6: malformed bytes and stray connected packets from an
unknown address both produce the empty iterator and leave the state
unchanged. -/
theorem claim_C6_wit :
    (Net.feedImpl trivOps decNone (Net.new : NetSt Nat Unit) 10 [3] =
      .ok (.none, (Net.new : NetSt Nat Unit), .ok ())) ∧
    (Net.feedImpl trivOps decStray (Net.new : NetSt Nat Unit) 10 [3] =
      .ok (.none, (Net.new : NetSt Nat Unit), .ok ())) :=
  ⟨(claim_C6 trivOps decNone (Net.new : NetSt Nat Unit) 10 [3] rfl (Or.inl rfl)).1,
   (claim_C6 trivOps decStray (Net.new : NetSt Nat Unit) 10 [3] rfl (Or.inr rfl)).1⟩

/-- Witness for C5: all five dispatch cases of Net::send at a concrete
one-peer registry (pid 3 at address 7). -/
theorem claim_C5_wit :
    (Net.send trivOps 8 serId (⟨[(3, ⟨(), 7⟩)], 4⟩ : NetSt Nat Unit) cbOk ⟨[1], .nonPeerConnless 7⟩ =
      .ok ((⟨[(3, ⟨(), 7⟩)], 4⟩ : NetSt Nat Unit), [], .ok ())) ∧
    (Net.send trivOps 8 serId (⟨[(3, ⟨(), 7⟩)], 4⟩ : NetSt Nat Unit) cbOk ⟨[1], .nonPeerConnless 9⟩ =
      .ok ((⟨[(3, ⟨(), 7⟩)], 4⟩ : NetSt Nat Unit), [(9, [1])], .ok ())) ∧
    (Net.send trivOps 8 serId (⟨[(3, ⟨(), 7⟩)], 4⟩ : NetSt Nat Unit) cbOk ⟨[1], .peer 3 .connless⟩ =
      .ok ((⟨[(3, ⟨(), 7⟩)], 4⟩ : NetSt Nat Unit), [], .ok ())) ∧
    (Net.send trivOps 8 serId (⟨[(3, ⟨(), 7⟩)], 4⟩ : NetSt Nat Unit) cbOk ⟨[1], .peer 3 .connected⟩ =
      .ok ((⟨[(3, ⟨(), 7⟩)], 4⟩ : NetSt Nat Unit), [], .ok ())) ∧
    (Net.send trivOps 8 serId (⟨[(3, ⟨(), 7⟩)], 4⟩ : NetSt Nat Unit) cbOk ⟨[1], .peer 3 .vital⟩ =
      .ok ((⟨[(3, ⟨(), 7⟩)], 4⟩ : NetSt Nat Unit), [], .ok ())) := by
  have h := claim_C5 trivOps 8 serId (⟨[(3, ⟨(), 7⟩)], 4⟩ : NetSt Nat Unit) cbOk [1] 7 3 ⟨(), 7⟩
  have h9 := claim_C5 trivOps 8 serId (⟨[(3, ⟨(), 7⟩)], 4⟩ : NetSt Nat Unit) cbOk [1] 9 3 ⟨(), 7⟩
  exact ⟨h.1 rfl rfl, h9.2.1 rfl, h.2.2.1 rfl, h.2.2.2.1 rfl, h.2.2.2.2 rfl⟩

/-- Witness for C7: with next_peer_id at the wrap boundary 2^32 - 1 and both
2^32 - 1 and 0 live, allocation wraps around and skips to the vacant id 1. -/
theorem claim_C7_wit :
    ∃ pid st',
      newPeer (⟨[(4294967295, ⟨(), 50⟩), (0, ⟨(), 60⟩)], 4294967295⟩ : NetSt Nat Unit) () 70 =
        some (pid, st') ∧
      plookup pid (⟨[(4294967295, ⟨(), 50⟩), (0, ⟨(), 60⟩)], 4294967295⟩ : NetSt Nat Unit).peers =
        none ∧
      st'.peers = (⟨[(4294967295, ⟨(), 50⟩), (0, ⟨(), 60⟩)], 4294967295⟩ : NetSt Nat Unit).peers ++
        [(pid, ⟨(), 70⟩)] ∧
      st'.nextPeerId = (pid + 1) % 2 ^ 32 ∧
      ∃ i < 2 ^ 32,
        pid = ((4294967295 : Nat) % 2 ^ 32 + i) % 2 ^ 32 ∧
        ∀ j < i,
          (plookup (((4294967295 : Nat) % 2 ^ 32 + j) % 2 ^ 32)
            (⟨[(4294967295, ⟨(), 50⟩), (0, ⟨(), 60⟩)], 4294967295⟩ : NetSt Nat Unit).peers).isSome :=
  claim_C7 (⟨[(4294967295, ⟨(), 50⟩), (0, ⟨(), 60⟩)], 4294967295⟩ : NetSt Nat Unit) () 70 1
    (by norm_num) rfl

/-- Witness for C8: payload [1, 2, 3] over a maximum of 2 is rejected with
TooLongData and nothing reaches the callback; a failing callback's error 42
comes back unchanged as Callback 42. -/
theorem claim_C8_wit :
    (Net.sendConnless 2 serId cbOk (5 : Nat) [1, 2, 3] = .ok ([], .error .tooLongData)) ∧
    (builderSend cbOk (5 : Nat) (.error .capacity) =
      (.error "too short buffer provided" :
        Except String (List (Nat × Bytes) × Except (NErr Nat) Unit))) ∧
    (Net.sendConnless 2 serId cbFail (5 : Nat) [1] =
      .ok ([(5, [1])], .error (.callback 42))) :=
  ⟨(claim_C8 2 serId cbOk 5 [1, 2, 3] 0).1 (by norm_num),
   (claim_C8 2 serId cbOk 5 [1, 2, 3] 0).2.1,
   (claim_C8 2 serId cbFail 5 [1] 42).2.2 (by norm_num) rfl⟩

/-- Witness for C9 (amended): on the empty Net, disconnect and send to a peer
chunk panic with "invalid pid", peer_addr returns None, and the allocation
probe only ever returns vacant ids (exemplified on a one-entry registry). -/
theorem claim_C9_wit :
    (Net.disconnect trivOps (Net.new : NetSt Nat Unit) 0 [] = .error "invalid pid") ∧
    (Net.send trivOps 8 serId (Net.new : NetSt Nat Unit) cbOk ⟨[], .peer 0 .vital⟩ =
      .error "invalid pid") ∧
    (Net.peerAddr (Net.new : NetSt Nat Unit) 0 = none) ∧
    plookup 1 [((0 : Nat), (⟨(), 9⟩ : Peer Nat Unit))] = none := by
  have h := claim_C9_amended trivOps 8 serId (Net.new : NetSt Nat Unit) cbOk 0 [] []
    ChunkType.vital rfl
  exact ⟨h.1, h.2.1, h.2.2.1, h.2.2.2 [((0 : Nat), (⟨(), 9⟩ : Peer Nat Unit))] 3 0 1 rfl⟩
